import Mathlib

/-!
Verification of the Game of Life Studio core (board engine, rule engine,
resize, pattern placement, persisted-state loading, and the tick driver).
Boards are embedded as `List ℕ` in row-major order (`index = y*width + x`),
mirroring the `Uint8Array` representation of the source; machine numbers
are embedded as `ℚ`/`ℤ`/`ℕ` with explicit rounding where the source rounds.
-/

namespace GameOfLife

/-- JavaScript `Math.round` on a finite number: `⌊q + 1/2⌋`. -/
def jsRound (q : ℚ) : ℤ := Int.floor (q + 1/2)

/-- `clampSize`: `Math.max(MIN_SIZE, Math.min(MAX_SIZE, Math.round(value)))`
with `MIN_SIZE = 10`, `MAX_SIZE = 150`. -/
def clampSize (q : ℚ) : ℤ := max 10 (min 150 (jsRound q))

/-- `createEmptyBoard`: a `width*height` array of zeros. -/
def createEmptyBoard (w h : ℕ) : List ℕ := List.replicate (w * h) 0

/-- `randomBoard`: cell `i` is `1` iff the `i`-th sample of `Math.random()`
is below `density`. The random source is passed explicitly. -/
def randomBoard (rand : ℕ → ℚ) (w h : ℕ) (density : ℚ) : List ℕ :=
  (List.range (w * h)).map fun i => if rand i < density then 1 else 0

/-- `deserializeCells`: strip all characters other than `'0'`/`'1'`, then
fill an array of length `width*height`, position `i` taken from the `i`-th
kept character (`'1'` ↦ 1, `'0'` ↦ 0) while it exists, `0` afterwards. -/
def deserializeCells (raw : List Char) (w h : ℕ) : List ℕ :=
  let normalized := raw.filter fun c => c == '0' || c == '1'
  (List.range (w * h)).map fun i =>
    if i < normalized.length then (if normalized.getD i '0' = '1' then 1 else 0) else 0

/-- The property names every plain JavaScript object inherits from
`Object.prototype`, which the `in` operator also reports as present. -/
def objectPrototypeKeys : List String :=
  ["constructor", "hasOwnProperty", "isPrototypeOf", "propertyIsEnumerable",
   "toLocaleString", "toString", "valueOf", "__defineGetter__",
   "__defineSetter__", "__lookupGetter__", "__lookupSetter__", "__proto__"]

/-- `isThemeId`: the source's `value in THEMES` check. The `in` operator is
true for the literal's own keys (the four theme ids) and also for property
names inherited from `Object.prototype`. -/
def isThemeId (t : String) : Bool :=
  t == "light" || t == "dark" || t == "neon" || t == "dawn"
    || objectPrototypeKeys.contains t

/-- The fixed fallback theme id used when `value in THEMES` is false. -/
def defaultTheme : String := "neon"

/-- The result of `JSON.parse` on the stored record: each field is `none`
when it is absent (or, for the `typeof`-guarded fields `speed`, `theme`,
`cells`, when it has the wrong runtime type). -/
structure Parsed where
  width : Option ℚ
  height : Option ℚ
  speed : Option ℚ
  wrap : Option Bool
  theme : Option String
  cells : Option String

/-- The `SavedState` record produced by `loadSavedState` on success. -/
structure SavedState where
  width : ℕ
  height : ℕ
  speed : ℚ
  wrap : Bool
  theme : String
  cells : Option String

/-- The successful branch of `loadSavedState`: clamp sizes, clamp or default
the speed, default `wrap` to `true`, validate the theme (fallback `neon`). -/
def loadSaved (p : Parsed) : SavedState where
  width := (clampSize (p.width.getD 42)).toNat
  height := (clampSize (p.height.getD 28)).toNat
  speed := match p.speed with | some s => min 30 (max 1 s) | none => 8
  wrap := p.wrap.getD true
  theme := match p.theme with
    | some t => if isThemeId t then t else defaultTheme
    | none => defaultTheme
  cells := p.cells

/-- `loadSavedState`: `none` when nothing is stored or parsing throws. -/
def loadSavedState (stored : Option Parsed) : Option SavedState :=
  stored.map loadSaved

/-- The initial `cells` state of `App`: deserialize the persisted cell string
when it is present and non-empty (the empty string is falsy in JavaScript),
otherwise an empty board of the saved size, or of the default size
`42 × 28` when there is no saved record at all. -/
def initCells (saved : Option SavedState) : List ℕ :=
  match saved with
  | none => createEmptyBoard 42 28
  | some s =>
    match s.cells with
    | some c =>
      if c = "" then createEmptyBoard s.width s.height
      else deserializeCells c.data s.width s.height
    | none => createEmptyBoard s.width s.height

/-- The two sequential edge adjustments of `computeNext`:
`if (n < 0) n = size - 1; if (n >= size) n = 0`. -/
def wrapCoord (n : ℤ) (size : ℕ) : ℤ :=
  let m := if n < 0 then (size : ℤ) - 1 else n
  if (size : ℤ) ≤ m then 0 else m

/-- The eight Moore-neighborhood offsets `(dx, dy)`, in the order scanned by
`computeNext` (`dy` outer, `dx` inner, skipping `(0,0)`). -/
def neighborOffsets : List (ℤ × ℤ) :=
  [(-1,-1), (0,-1), (1,-1), (-1,0), (1,0), (-1,1), (0,1), (1,1)]

/-- The contribution of the neighbor at offset `d` to the live-neighbor
count of `(x, y)`: wrapped lookup under `wrap`, otherwise `0` for any
out-of-bounds coordinate. -/
def neighborContrib (b : List ℕ) (w h : ℕ) (wrap : Bool) (x y : ℕ) (d : ℤ × ℤ) : ℕ :=
  let nx : ℤ := (x : ℤ) + d.1
  let ny : ℤ := (y : ℤ) + d.2
  if wrap then
    let wx := wrapCoord nx w
    let wy := wrapCoord ny h
    b.getD (wy * w + wx).toNat 0
  else if nx < 0 ∨ (w : ℤ) ≤ nx ∨ ny < 0 ∨ (h : ℤ) ≤ ny then 0
  else b.getD (ny.toNat * w + nx.toNat) 0

/-- The inner double loop of `computeNext`: the live-neighbor count. -/
def liveNeighbors (b : List ℕ) (w h : ℕ) (wrap : Bool) (x y : ℕ) : ℕ :=
  (neighborOffsets.map (neighborContrib b w h wrap x y)).sum

/-- The next state of cell `(x, y)`: survival on 2 or 3 neighbors for a live
(truthy) cell, birth on exactly 3 for a dead cell. -/
def nextCell (b : List ℕ) (w h : ℕ) (wrap : Bool) (x y : ℕ) : ℕ :=
  let n := liveNeighbors b w h wrap x y
  if b.getD (y * w + x) 0 ≠ 0 then (if n = 2 ∨ n = 3 then 1 else 0)
  else if n = 3 then 1 else 0

/-- `computeNext`: a fresh array of the input's length; every index inside
the `width*height` scan gets its B3/S23 value, the rest stay `0`. -/
def computeNext (b : List ℕ) (w h : ℕ) (wrap : Bool) : List ℕ :=
  (List.range b.length).map fun idx =>
    if idx < w * h then nextCell b w h wrap (idx % w) (idx / w) else 0

/-- A preset pattern: minimum board size plus center-relative offsets. -/
structure Pattern where
  minWidth : ℕ
  minHeight : ℕ
  offsets : List (ℤ × ℤ)

/-- One step of the `applyPattern` placement loop: set the target cell of
offset `d` to `1` when it is in bounds, otherwise leave the board alone. -/
def placeStep (w h cx cy : ℕ) (next : List ℕ) (d : ℤ × ℤ) : List ℕ :=
  let x : ℤ := (cx : ℤ) + d.1
  let y : ℤ := (cy : ℤ) + d.2
  if 0 ≤ x ∧ x < (w : ℤ) ∧ 0 ≤ y ∧ y < (h : ℤ) then
    next.set (y.toNat * w + x.toNat) 1
  else next

/-- `applyPattern`: skipped entirely when the board is below the pattern's
minimum size; otherwise every offset is placed around the board center
`(⌊w/2⌋, ⌊h/2⌋)`. -/
def applyPattern (cells : List ℕ) (w h : ℕ) (p : Pattern) : List ℕ :=
  if w < p.minWidth ∨ h < p.minHeight then cells
  else p.offsets.foldl (placeStep w h (w / 2) (h / 2)) cells

/-- The resize loop of `applySize`: a fresh all-zero `w*h` board whose
overlapping rectangle with the old board is copied over. -/
def resizeBoard (prev : List ℕ) (oldW oldH w h : ℕ) : List ℕ :=
  (List.range (w * h)).map fun idx =>
    if idx / w < min oldH h ∧ idx % w < min oldW w then
      prev.getD ((idx / w) * oldW + idx % w) 0
    else 0

/-- `applySize`: clamp the drafted dimensions, skip when they equal the
current ones, otherwise rebuild the board. Returns `(cells, width, height)`. -/
def applySize (prev : List ℕ) (oldW oldH : ℕ) (draftW draftH : ℚ) : List ℕ × ℕ × ℕ :=
  let w := (clampSize draftW).toNat
  let h := (clampSize draftH).toNat
  if w = oldW ∧ h = oldH then (prev, oldW, oldH)
  else (resizeBoard prev oldW oldH w h, w, h)

/-- The orchestration state the generation counter lives in. -/
structure AppState where
  cells : List ℕ
  width : ℕ
  height : ℕ
  wrap : Bool
  generation : ℕ

/-- `stepOnce`: advance one generation and increment the counter. -/
def stepOnce (s : AppState) : AppState :=
  { s with cells := computeNext s.cells s.width s.height s.wrap,
           generation := s.generation + 1 }

/-- `clearBoard`: empty board, counter reset. -/
def clearBoard (s : AppState) : AppState :=
  { s with cells := createEmptyBoard s.width s.height, generation := 0 }

/-- `randomizeBoard`: random board at the current density, counter reset. -/
def randomizeBoard (rand : ℕ → ℚ) (density : ℚ) (s : AppState) : AppState :=
  { s with cells := randomBoard rand s.width s.height density, generation := 0 }

/-- `applyPattern` as a state operation: toast-and-return when the board is
too small (no counter reset), otherwise place and reset the counter. -/
def applyPatternOp (p : Pattern) (s : AppState) : AppState :=
  if s.width < p.minWidth ∨ s.height < p.minHeight then s
  else { s with cells := applyPattern s.cells s.width s.height p, generation := 0 }

/-- `applySize` as a state operation: no-op when the clamped dimensions equal
the current ones, otherwise resize and reset the counter. -/
def applySizeOp (draftW draftH : ℚ) (s : AppState) : AppState :=
  let w := (clampSize draftW).toNat
  let h := (clampSize draftH).toNat
  if w = s.width ∧ h = s.height then s
  else { s with cells := resizeBoard s.cells s.width s.height w h,
                width := w, height := h, generation := 0 }

/-- One `requestAnimationFrame` callback of the running effect: advance (and
record `lastFrame := now`) only when at least `1000/speed` ms have passed
since the last advance. Returns `(lastFrame, generation)`. -/
def tick (speed : ℚ) (now lastFrame : ℚ) (gen : ℕ) : ℚ × ℕ :=
  if 1000 / speed ≤ now - lastFrame then (now, gen + 1) else (lastFrame, gen)

/-- The running effect over a whole trace of callback timestamps: the list of
timestamps at which a generation advance fires. -/
def tickRun (speed : ℚ) : List ℚ → ℚ → List ℚ
  | [], _ => []
  | now :: rest, lastFrame =>
    if 1000 / speed ≤ now - lastFrame then now :: tickRun speed rest now
    else tickRun speed rest lastFrame

/-! Helper lemmas. -/

lemma getD_map_range (f : ℕ → ℕ) (n i : ℕ) (h : i < n) :
    ((List.range n).map f).getD i 0 = f i := by
  rw [List.getD_eq_getElem?_getD, List.getElem?_map, List.getElem?_range h]
  rfl

lemma getD_zero_or_one (b : List ℕ) (hc : ∀ c ∈ b, c = 0 ∨ c = 1) (i : ℕ) :
    b.getD i 0 = 0 ∨ b.getD i 0 = 1 := by
  by_cases hi : i < b.length
  · rw [List.getD_eq_getElem _ _ hi]
    exact hc _ (List.getElem_mem hi)
  · rw [List.getD_eq_default _ _ (Nat.le_of_not_lt hi)]
    exact Or.inl rfl

lemma getD_le_one (b : List ℕ) (hc : ∀ c ∈ b, c = 0 ∨ c = 1) (i : ℕ) :
    b.getD i 0 ≤ 1 := by
  rcases getD_zero_or_one b hc i with h | h <;> omega

lemma decomp_mod (x y w : ℕ) (hx : x < w) : (y * w + x) % w = x := by
  rw [Nat.mul_comm, Nat.mul_add_mod, Nat.mod_eq_of_lt hx]

lemma decomp_div (x y w : ℕ) (hx : x < w) : (y * w + x) / w = y := by
  have hw : 0 < w := Nat.lt_of_le_of_lt (Nat.zero_le x) hx
  rw [Nat.mul_comm, Nat.mul_add_div hw, Nat.div_eq_of_lt hx]
  omega

lemma idx_lt {x y w h : ℕ} (hx : x < w) (hy : y < h) : y * w + x < w * h := by
  have h1 : y * w + x < (y + 1) * w := by
    rw [Nat.add_mul, Nat.one_mul]
    omega
  have h2 : (y + 1) * w ≤ h * w := Nat.mul_le_mul_right w hy
  rw [Nat.mul_comm w h]
  omega

lemma rowmajor_inj {x1 y1 x2 y2 w : ℕ} (h1 : x1 < w) (h2 : x2 < w) :
    y1 * w + x1 = y2 * w + x2 ↔ x1 = x2 ∧ y1 = y2 := by
  constructor
  · intro he
    have hm : x1 = x2 := by
      have e1 := decomp_mod x1 y1 w h1
      have e2 := decomp_mod x2 y2 w h2
      rw [← e1, ← e2, he]
    have hd : y1 = y2 := by
      have e1 := decomp_div x1 y1 w h1
      have e2 := decomp_div x2 y2 w h2
      rw [← e1, ← e2, he]
    exact ⟨hm, hd⟩
  · rintro ⟨rfl, rfl⟩
    rfl

lemma wrapCoord_eq_emod (n : ℤ) (w : ℕ) (hw : 0 < w) (hn1 : -1 ≤ n) (hn2 : n ≤ w) :
    wrapCoord n w = n % (w : ℤ) := by
  unfold wrapCoord
  by_cases hneg : n < 0
  · have hn : n = -1 := by omega
    subst hn
    have e1 : (-1 : ℤ) % (w : ℤ) = ((w : ℤ) - 1) % (w : ℤ) := by
      have e : ((w : ℤ) - 1) = -1 + (w : ℤ) * 1 := by ring
      rw [e, Int.add_mul_emod_self_left]
    have e2 : ((w : ℤ) - 1) % (w : ℤ) = (w : ℤ) - 1 :=
      Int.emod_eq_of_lt (by omega) (by omega)
    simp only [if_pos hneg]
    rw [e1, e2]
    have hno : ¬ ((w : ℤ) ≤ (w : ℤ) - 1) := by omega
    simp [hno]
  · simp only [if_neg hneg]
    by_cases hge : (w : ℤ) ≤ n
    · have hn : n = (w : ℤ) := by omega
      subst hn
      simp [Int.emod_self]
    · rw [if_neg hge, Int.emod_eq_of_lt (by omega) (by omega)]

lemma toNat_index (a b : ℤ) (w : ℕ) (ha : 0 ≤ a) (hb : 0 ≤ b) :
    (a * w + b).toNat = a.toNat * w + b.toNat := by
  obtain ⟨n, rfl⟩ := Int.eq_ofNat_of_zero_le ha
  obtain ⟨m, rfl⟩ := Int.eq_ofNat_of_zero_le hb
  have e : ((n : ℤ) * w + m) = ((n * w + m : ℕ) : ℤ) := by push_cast; ring
  rw [e, Int.toNat_natCast]
  simp

lemma sum_map_eq_sum_filter {α : Type} (l : List α) (f g : α → ℕ) (p : α → Bool)
    (hfg : ∀ a ∈ l, f a = if p a then g a else 0) :
    (l.map f).sum = ((l.filter p).map g).sum := by
  induction l with
  | nil => rfl
  | cons a l ih =>
    have ha := hfg a (by simp)
    have ihl := ih fun b hb => hfg b (by simp [hb])
    simp only [List.map_cons, List.sum_cons, List.filter_cons]
    by_cases hp : p a
    · rw [if_pos hp] at ha
      rw [if_pos hp, ha, List.map_cons, List.sum_cons, ihl]
    · rw [if_neg hp] at ha
      rw [if_neg hp, ha, ihl, Nat.zero_add]

lemma nextCell_eq (b : List ℕ) (w h : ℕ) (wr : Bool) (x y : ℕ) :
    nextCell b w h wr x y =
      if b.getD (y * w + x) 0 ≠ 0 then
        (if liveNeighbors b w h wr x y = 2 ∨ liveNeighbors b w h wr x y = 3 then 1 else 0)
      else if liveNeighbors b w h wr x y = 3 then 1 else 0 := rfl

lemma nextCell_zero_or_one (b : List ℕ) (w h : ℕ) (wr : Bool) (x y : ℕ) :
    nextCell b w h wr x y = 0 ∨ nextCell b w h wr x y = 1 := by
  rw [nextCell_eq]
  split_ifs <;> simp

lemma neighborContrib_false (b : List ℕ) (w h x y : ℕ) (d : ℤ × ℤ) :
    neighborContrib b w h false x y d =
      if (x : ℤ) + d.1 < 0 ∨ (w : ℤ) ≤ (x : ℤ) + d.1
          ∨ (y : ℤ) + d.2 < 0 ∨ (h : ℤ) ≤ (y : ℤ) + d.2 then 0
      else b.getD (((y : ℤ) + d.2).toNat * w + ((x : ℤ) + d.1).toNat) 0 := rfl

lemma computeNext_getD (b : List ℕ) (w h : ℕ) (wr : Bool) (x y : ℕ)
    (hlen : b.length = w * h) (hx : x < w) (hy : y < h) :
    (computeNext b w h wr).getD (y * w + x) 0 = nextCell b w h wr x y := by
  have hidx : y * w + x < w * h := idx_lt hx hy
  rw [computeNext, getD_map_range _ _ _ (by omega : y * w + x < b.length)]
  rw [if_pos hidx, decomp_mod x y w hx, decomp_div x y w hx]

lemma offsets_bound {d : ℤ × ℤ} (hd : d ∈ neighborOffsets) :
    -1 ≤ d.1 ∧ d.1 ≤ 1 ∧ -1 ≤ d.2 ∧ d.2 ≤ 1 := by
  simp only [neighborOffsets, List.mem_cons, List.not_mem_nil, or_false] at hd
  rcases hd with rfl | rfl | rfl | rfl | rfl | rfl | rfl | rfl <;> norm_num

lemma neg_one_emod (w : ℕ) (hw : 0 < w) : (-1 : ℤ) % (w : ℤ) = (w : ℤ) - 1 := by
  have e : ((w : ℤ) - 1) = -1 + (w : ℤ) * 1 := by ring
  rw [show (-1 : ℤ) % (w : ℤ) = ((w : ℤ) - 1) % (w : ℤ) by
        rw [e, Int.add_mul_emod_self_left],
      Int.emod_eq_of_lt (by omega) (by omega)]

lemma wrap_contrib_eq (b : List ℕ) (w h x y : ℕ) (hw : 0 < w) (hh : 0 < h)
    (hx : x < w) (hy : y < h) (d : ℤ × ℤ) (hd : d ∈ neighborOffsets) :
    neighborContrib b w h true x y d
      = b.getD ((((y : ℤ) + d.2) % (h : ℤ)).toNat * w + (((x : ℤ) + d.1) % (w : ℤ)).toNat) 0 := by
  obtain ⟨hb1, hb2, hb3, hb4⟩ := offsets_bound hd
  have hwz : (w : ℤ) ≠ 0 := by omega
  have hhz : (h : ℤ) ≠ 0 := by omega
  unfold neighborContrib
  simp only [if_true, ite_true, if_pos rfl]
  rw [wrapCoord_eq_emod ((x : ℤ) + d.1) w hw (by omega) (by omega),
      wrapCoord_eq_emod ((y : ℤ) + d.2) h hh (by omega) (by omega),
      toNat_index _ _ w (Int.emod_nonneg _ hhz) (Int.emod_nonneg _ hwz)]

/-- Claim C1: `computeNext` applies Conway's B3/S23 rule pointwise, for both
boundary modes: a live cell survives iff its live-neighbor count is 2 or 3,
a dead cell is born iff the count is exactly 3, and a cell with exactly 3
live neighbors is live in the next generation regardless of its state. -/
theorem computeNext_b3s23 (b : List ℕ) (w h : ℕ) (wr : Bool) (x y : ℕ)
    (hlen : b.length = w * h) (hcells : ∀ c ∈ b, c = 0 ∨ c = 1)
    (hx : x < w) (hy : y < h) :
    (b.getD (y * w + x) 0 = 1 →
      (computeNext b w h wr).getD (y * w + x) 0
        = if liveNeighbors b w h wr x y = 2 ∨ liveNeighbors b w h wr x y = 3 then 1 else 0)
    ∧ (b.getD (y * w + x) 0 = 0 →
      (computeNext b w h wr).getD (y * w + x) 0
        = if liveNeighbors b w h wr x y = 3 then 1 else 0)
    ∧ (liveNeighbors b w h wr x y = 3 →
      (computeNext b w h wr).getD (y * w + x) 0 = 1) := by
  rw [computeNext_getD b w h wr x y hlen hx hy]
  refine ⟨?_, ?_, ?_⟩
  · intro h1
    rw [nextCell_eq, if_pos (by omega : b.getD (y * w + x) 0 ≠ 0)]
  · intro h0
    rw [nextCell_eq, if_neg (by omega : ¬ b.getD (y * w + x) 0 ≠ 0)]
  · intro h3
    rcases getD_zero_or_one b hcells (y * w + x) with h0 | h1
    · rw [nextCell_eq, if_neg (by omega : ¬ b.getD (y * w + x) 0 ≠ 0), if_pos h3]
    · rw [nextCell_eq, if_pos (by omega : b.getD (y * w + x) 0 ≠ 0), if_pos (Or.inr h3)]

/-- Witness for C1 on the horizontal blinker in a 3×3 bounded board: the
center cell is live with 2 neighbors and survives. -/
theorem computeNext_b3s23_witness :
    (computeNext [0, 0, 0, 1, 1, 1, 0, 0, 0] 3 3 false).getD (1 * 3 + 1) 0 = 1 := by
  have h := computeNext_b3s23 [0, 0, 0, 1, 1, 1, 0, 0, 0] 3 3 false 1 1
    (by decide) (by decide) (by decide) (by decide)
  rw [h.1 (by decide)]
  decide

/-- Claim C2: the live-neighbor count ranges over the 8-cell Moore
neighborhood; with `wrap = true` each neighbor coordinate is taken modulo
the corresponding dimension (so the cell at `(w-1, h-1)`, if live, is
counted as a neighbor of `(0,0)`), and with `wrap = false` out-of-bounds
coordinates are excluded, so the corner `(0,0)` counts at most 3. -/
theorem neighbor_addressing (b : List ℕ) (w h x y : ℕ)
    (hw : 0 < w) (hh : 0 < h) (hx : x < w) (hy : y < h)
    (hcells : ∀ c ∈ b, c = 0 ∨ c = 1) :
    (liveNeighbors b w h true x y
      = (neighborOffsets.map fun d =>
          b.getD ((((y : ℤ) + d.2) % (h : ℤ)).toNat * w
            + (((x : ℤ) + d.1) % (w : ℤ)).toNat) 0).sum)
    ∧ (liveNeighbors b w h false x y
      = ((neighborOffsets.filter fun d =>
            decide (0 ≤ (x : ℤ) + d.1 ∧ (x : ℤ) + d.1 < (w : ℤ)
              ∧ 0 ≤ (y : ℤ) + d.2 ∧ (y : ℤ) + d.2 < (h : ℤ))).map fun d =>
          b.getD (((y : ℤ) + d.2).toNat * w + ((x : ℤ) + d.1).toNat) 0).sum)
    ∧ (b.getD ((h - 1) * w + (w - 1)) 0 = 1 → 1 ≤ liveNeighbors b w h true 0 0)
    ∧ liveNeighbors b w h false 0 0 ≤ 3 := by
  have hz : ∀ c1 c2 : ℤ, c1 < 0 ∨ c2 < 0 → neighborContrib b w h false 0 0 (c1, c2) = 0 := by
    intro c1 c2 hc
    rw [neighborContrib_false, if_pos (by push_cast; omega)]
  have hbd : ∀ d : ℤ × ℤ, neighborContrib b w h false 0 0 d ≤ 1 := by
    intro d
    rw [neighborContrib_false]
    split_ifs
    · omega
    · exact getD_le_one b hcells _
  refine ⟨?_, ?_, ?_, ?_⟩
  · unfold liveNeighbors
    exact congrArg List.sum (List.map_congr_left (wrap_contrib_eq b w h x y hw hh hx hy))
  · unfold liveNeighbors
    apply sum_map_eq_sum_filter
    intro d _
    by_cases hc : 0 ≤ (x : ℤ) + d.1 ∧ (x : ℤ) + d.1 < (w : ℤ)
        ∧ 0 ≤ (y : ℤ) + d.2 ∧ (y : ℤ) + d.2 < (h : ℤ)
    · rw [if_pos (decide_eq_true hc), neighborContrib_false, if_neg (by omega)]
    · rw [if_neg (by simpa using hc), neighborContrib_false, if_pos (by omega)]
  · intro hcorner
    have e : neighborContrib b w h true 0 0 (-1, -1) = b.getD ((h - 1) * w + (w - 1)) 0 := by
      rw [wrap_contrib_eq b w h 0 0 hw hh hw hh (-1, -1) (by simp [neighborOffsets])]
      norm_num [neg_one_emod w hw, neg_one_emod h hh]
    simp only [liveNeighbors, neighborOffsets, List.map_cons, List.map_nil,
      List.sum_cons, List.sum_nil]
    rw [e, hcorner]
    omega
  · simp only [liveNeighbors, neighborOffsets, List.map_cons, List.map_nil,
      List.sum_cons, List.sum_nil]
    rw [hz (-1) (-1) (by omega), hz 0 (-1) (by omega), hz 1 (-1) (by omega),
      hz (-1) 0 (by omega), hz (-1) 1 (by omega)]
    have b1 := hbd (1, 0)
    have b2 := hbd (0, 1)
    have b3 := hbd (1, 1)
    omega

/-- Witness for C2 on a 2×2 board with one live cell, at the corner. -/
theorem neighbor_addressing_witness :
    1 ≤ liveNeighbors [0, 0, 0, 1] 2 2 true 0 0 := by
  have h := neighbor_addressing [0, 0, 0, 1] 2 2 0 0
    (by decide) (by decide) (by decide) (by decide) (by decide)
  exact h.2.2.1 (by decide)

lemma placeStep_eq (w h cx cy : ℕ) (next : List ℕ) (d : ℤ × ℤ) :
    placeStep w h cx cy next d =
      if 0 ≤ (cx : ℤ) + d.1 ∧ (cx : ℤ) + d.1 < (w : ℤ)
          ∧ 0 ≤ (cy : ℤ) + d.2 ∧ (cy : ℤ) + d.2 < (h : ℤ) then
        next.set (((cy : ℤ) + d.2).toNat * w + ((cx : ℤ) + d.1).toNat) 1
      else next := rfl

lemma placeStep_length (w h cx cy : ℕ) (next : List ℕ) (d : ℤ × ℤ) :
    (placeStep w h cx cy next d).length = next.length := by
  rw [placeStep_eq]
  split_ifs <;> simp

lemma foldl_placeStep_length (l : List (ℤ × ℤ)) (cells : List ℕ) (w h cx cy : ℕ) :
    (l.foldl (placeStep w h cx cy) cells).length = cells.length := by
  induction l generalizing cells with
  | nil => rfl
  | cons d l ih => rw [List.foldl_cons, ih, placeStep_length]

lemma placeStep_zero_or_one (w h cx cy : ℕ) (next : List ℕ) (d : ℤ × ℤ)
    (h01 : ∀ c ∈ next, c = 0 ∨ c = 1) :
    ∀ c ∈ placeStep w h cx cy next d, c = 0 ∨ c = 1 := by
  intro c hc
  rw [placeStep_eq] at hc
  split_ifs at hc
  · rcases List.mem_or_eq_of_mem_set hc with hm | rfl
    · exact h01 c hm
    · exact Or.inr rfl
  · exact h01 c hc

lemma foldl_placeStep_zero_or_one (l : List (ℤ × ℤ)) (cells : List ℕ) (w h cx cy : ℕ)
    (h01 : ∀ c ∈ cells, c = 0 ∨ c = 1) :
    ∀ c ∈ l.foldl (placeStep w h cx cy) cells, c = 0 ∨ c = 1 := by
  induction l generalizing cells with
  | nil => exact h01
  | cons d l ih =>
    rw [List.foldl_cons]
    exact ih _ (placeStep_zero_or_one w h cx cy cells d h01)

lemma getD_set_self (l : List ℕ) (i : ℕ) (a : ℕ) (hi : i < l.length) :
    (l.set i a).getD i 0 = a := by
  rw [List.getD_eq_getElem _ _ (by simpa using hi), List.getElem_set_self]

lemma getD_set_ne (l : List ℕ) (i j : ℕ) (a : ℕ) (hne : i ≠ j) :
    (l.set i a).getD j 0 = l.getD j 0 := by
  rw [List.getD_eq_getElem?_getD, List.getElem?_set_ne hne, ← List.getD_eq_getElem?_getD]

lemma foldl_placeStep_getD (l : List (ℤ × ℤ)) (cells : List ℕ) (w h cx cy i : ℕ)
    (hi : i < cells.length) :
    (l.foldl (placeStep w h cx cy) cells).getD i 0
      = if ∃ d ∈ l, 0 ≤ (cx : ℤ) + d.1 ∧ (cx : ℤ) + d.1 < (w : ℤ)
            ∧ 0 ≤ (cy : ℤ) + d.2 ∧ (cy : ℤ) + d.2 < (h : ℤ)
            ∧ ((cy : ℤ) + d.2).toNat * w + ((cx : ℤ) + d.1).toNat = i then 1
        else cells.getD i 0 := by
  induction l generalizing cells with
  | nil => simp
  | cons d l ih =>
    rw [List.foldl_cons, ih _ (by rw [placeStep_length]; exact hi)]
    by_cases hex : ∃ d2 ∈ l, 0 ≤ (cx : ℤ) + d2.1 ∧ (cx : ℤ) + d2.1 < (w : ℤ)
        ∧ 0 ≤ (cy : ℤ) + d2.2 ∧ (cy : ℤ) + d2.2 < (h : ℤ)
        ∧ ((cy : ℤ) + d2.2).toNat * w + ((cx : ℤ) + d2.1).toNat = i
    · obtain ⟨d2, hd2, hc2⟩ := hex
      rw [if_pos ⟨d2, hd2, hc2⟩, if_pos ⟨d2, List.mem_cons_of_mem d hd2, hc2⟩]
    · rw [if_neg hex, placeStep_eq]
      by_cases hb : 0 ≤ (cx : ℤ) + d.1 ∧ (cx : ℤ) + d.1 < (w : ℤ)
          ∧ 0 ≤ (cy : ℤ) + d.2 ∧ (cy : ℤ) + d.2 < (h : ℤ)
      · rw [if_pos hb]
        by_cases ht : ((cy : ℤ) + d.2).toNat * w + ((cx : ℤ) + d.1).toNat = i
        · rw [ht, getD_set_self _ _ _ hi,
            if_pos ⟨d, List.mem_cons_self d l, hb.1, hb.2.1, hb.2.2.1, hb.2.2.2, ht⟩]
        · rw [getD_set_ne _ _ _ _ ht, if_neg ?_]
          rintro ⟨d1, hd1, hc1⟩
          rcases List.mem_cons.mp hd1 with rfl | hmem
          · exact ht hc1.2.2.2.2
          · exact hex ⟨d1, hmem, hc1⟩
      · rw [if_neg hb, if_neg ?_]
        rintro ⟨d1, hd1, hc1⟩
        rcases List.mem_cons.mp hd1 with rfl | hmem
        · exact hb ⟨hc1.1, hc1.2.1, hc1.2.2.1, hc1.2.2.2.1⟩
        · exact hex ⟨d1, hmem, hc1⟩

/-- Claim C3: every board-producing operation preserves the board invariant
(array length `width*height` of its dimensions, all elements 0 or 1):
`computeNext` keeps the input's length (hence its dimensions), `resizeBoard`
produces `newWidth*newHeight` cells, and `createEmptyBoard`, `randomBoard`,
`applyPattern` and `applySize` also preserve the invariant. -/
theorem board_invariant_preserved (b prev : List ℕ) (w h oW oH nW nH : ℕ) (wr : Bool)
    (p : Pattern) (rand : ℕ → ℚ) (density dW dH : ℚ)
    (hb : b.length = w * h) (hprev01 : ∀ c ∈ prev, c = 0 ∨ c = 1)
    (hpl : prev.length = oW * oH) :
    ((computeNext b w h wr).length = w * h
      ∧ ∀ c ∈ computeNext b w h wr, c = 0 ∨ c = 1)
    ∧ ((resizeBoard prev oW oH nW nH).length = nW * nH
      ∧ ∀ c ∈ resizeBoard prev oW oH nW nH, c = 0 ∨ c = 1)
    ∧ ((createEmptyBoard w h).length = w * h
      ∧ ∀ c ∈ createEmptyBoard w h, c = 0 ∨ c = 1)
    ∧ ((randomBoard rand w h density).length = w * h
      ∧ ∀ c ∈ randomBoard rand w h density, c = 0 ∨ c = 1)
    ∧ ((applyPattern prev oW oH p).length = prev.length
      ∧ ∀ c ∈ applyPattern prev oW oH p, c = 0 ∨ c = 1)
    ∧ (applySize prev oW oH dW dH).1.length
        = (applySize prev oW oH dW dH).2.1 * (applySize prev oW oH dW dH).2.2 := by
  refine ⟨⟨?_, ?_⟩, ⟨?_, ?_⟩, ⟨?_, ?_⟩, ⟨?_, ?_⟩, ⟨?_, ?_⟩, ?_⟩
  · simp [computeNext, hb]
  · intro c hc
    obtain ⟨i, hi, rfl⟩ := List.mem_map.mp hc
    split_ifs
    · exact nextCell_zero_or_one b w h wr _ _
    · exact Or.inl rfl
  · simp [resizeBoard]
  · intro c hc
    obtain ⟨i, hi, rfl⟩ := List.mem_map.mp hc
    split_ifs
    · exact getD_zero_or_one prev hprev01 _
    · exact Or.inl rfl
  · simp [createEmptyBoard]
  · intro c hc
    rw [createEmptyBoard] at hc
    exact Or.inl (List.eq_of_mem_replicate hc)
  · simp [randomBoard]
  · intro c hc
    obtain ⟨i, hi, rfl⟩ := List.mem_map.mp hc
    split_ifs
    · exact Or.inr rfl
    · exact Or.inl rfl
  · rw [applyPattern]
    split_ifs
    · rfl
    · exact foldl_placeStep_length _ _ _ _ _ _
  · rw [applyPattern]
    split_ifs
    · exact hprev01
    · exact foldl_placeStep_zero_or_one _ _ _ _ _ _ hprev01
  · rw [applySize]
    split_ifs with hc
    · simpa using hpl
    · simp [resizeBoard]

/-- Witness for C3: the engine operations on a concrete 2×2 board. -/
theorem board_invariant_preserved_witness :
    (computeNext [1, 0, 0, 0] 2 2 false).length = 2 * 2
    ∧ (applySize [1, 0] 2 1 (20 : ℚ) (15 : ℚ)).1.length
        = (applySize [1, 0] 2 1 (20 : ℚ) (15 : ℚ)).2.1
          * (applySize [1, 0] 2 1 (20 : ℚ) (15 : ℚ)).2.2 := by
  have h := board_invariant_preserved [1, 0, 0, 0] [1, 0] 2 2 2 1 3 3 false
    ⟨1, 1, [(0, 0)]⟩ (fun _ => 0) (1/2) 20 15 (by decide) (by decide) (by decide)
  exact ⟨h.1.1, h.2.2.2.2.2⟩

/-- Claim C4: `resizeBoard` keeps every cell of the overlapping top-left
rectangle `[0, min oldW newW) × [0, min oldH newH)` and zero-fills every
other cell of the new board. -/
theorem resize_content (prev : List ℕ) (oW oH nW nH x y : ℕ)
    (hx : x < nW) (hy : y < nH) :
    (resizeBoard prev oW oH nW nH).getD (y * nW + x) 0
      = if x < min oW nW ∧ y < min oH nH then prev.getD (y * oW + x) 0 else 0 := by
  have hidx : y * nW + x < nW * nH := idx_lt hx hy
  rw [resizeBoard, getD_map_range _ _ _ hidx]
  rw [decomp_mod x y nW hx, decomp_div x y nW hx]
  by_cases hc : x < min oW nW ∧ y < min oH nH
  · rw [if_pos ⟨hc.2, hc.1⟩, if_pos hc]
  · rw [if_neg (by tauto), if_neg hc]

/-- Witness for C4: growing a 2×2 board with live corner to 3×3 keeps the
corner cell. -/
theorem resize_content_witness :
    (resizeBoard [1, 0, 0, 0] 2 2 3 3).getD (0 * 3 + 0) 0 = 1 := by
  rw [resize_content [1, 0, 0, 0] 2 2 3 3 0 0 (by decide) (by decide)]
  decide

/-- Claim C5: when the board meets the pattern's minimum size, placement sets
exactly the cells `(⌊w/2⌋ + dx, ⌊h/2⌋ + dy)` for the pattern's offsets to 1
(out-of-bounds offsets silently dropped), leaving every other cell
unchanged; when the board is too small, the board is returned unchanged. -/
theorem pattern_placement (cells : List ℕ) (w h : ℕ) (p : Pattern) (x y : ℕ)
    (hlen : cells.length = w * h) (hx : x < w) (hy : y < h) :
    (p.minWidth ≤ w → p.minHeight ≤ h →
      (applyPattern cells w h p).getD (y * w + x) 0
        = if ∃ d ∈ p.offsets, ((w / 2 : ℕ) : ℤ) + d.1 = (x : ℤ)
              ∧ ((h / 2 : ℕ) : ℤ) + d.2 = (y : ℤ) then 1
          else cells.getD (y * w + x) 0)
    ∧ (w < p.minWidth ∨ h < p.minHeight → applyPattern cells w h p = cells) := by
  constructor
  · intro hW hH
    rw [applyPattern, if_neg (by omega)]
    rw [foldl_placeStep_getD _ _ _ _ _ _ _ (by rw [hlen]; exact idx_lt hx hy)]
    have hiff : (∃ d ∈ p.offsets, 0 ≤ ((w / 2 : ℕ) : ℤ) + d.1
          ∧ ((w / 2 : ℕ) : ℤ) + d.1 < (w : ℤ)
          ∧ 0 ≤ ((h / 2 : ℕ) : ℤ) + d.2 ∧ ((h / 2 : ℕ) : ℤ) + d.2 < (h : ℤ)
          ∧ (((h / 2 : ℕ) : ℤ) + d.2).toNat * w + (((w / 2 : ℕ) : ℤ) + d.1).toNat = y * w + x)
        ↔ (∃ d ∈ p.offsets, ((w / 2 : ℕ) : ℤ) + d.1 = (x : ℤ)
          ∧ ((h / 2 : ℕ) : ℤ) + d.2 = (y : ℤ)) := by
      constructor
      · rintro ⟨d, hd, h1, h2, h3, h4, h5⟩
        have hxa : (((w / 2 : ℕ) : ℤ) + d.1).toNat < w := by omega
        have hu := (rowmajor_inj hxa hx).mp h5
        exact ⟨d, hd, by omega, by omega⟩
      · rintro ⟨d, hd, e1, e2⟩
        have ha : (((w / 2 : ℕ) : ℤ) + d.1).toNat = x := by omega
        have hb : (((h / 2 : ℕ) : ℤ) + d.2).toNat = y := by omega
        exact ⟨d, hd, by omega, by omega, by omega, by omega, by rw [ha, hb]⟩
    simp only [hiff]
  · intro hlt
    rw [applyPattern, if_pos hlt]

/-- Witness for C5: a 2-cell horizontal pattern on an all-dead 3×3 board
lights the center cell. -/
theorem pattern_placement_witness :
    (applyPattern [0, 0, 0, 0, 0, 0, 0, 0, 0] 3 3 ⟨2, 2, [(0, 0), (1, 0)]⟩).getD (1 * 3 + 1) 0
      = 1 := by
  have h := pattern_placement [0, 0, 0, 0, 0, 0, 0, 0, 0] 3 3 ⟨2, 2, [(0, 0), (1, 0)]⟩ 1 1
    (by decide) (by decide) (by decide)
  rw [h.1 (by decide) (by decide)]
  decide

lemma clampSize_toNat_bounds (q : ℚ) :
    10 ≤ (clampSize q).toNat ∧ (clampSize q).toNat ≤ 150 := by
  have h1 : (10 : ℤ) ≤ clampSize q := le_max_left _ _
  have h2 : clampSize q ≤ 150 := max_le (by norm_num) (min_le_left _ _)
  omega

/-- Claim C6 (amended): each persisted field degrades individually — sizes
clamped to `[10,150]`, speed clamped to `[1,30]` with default 8, wrap
defaulting to `true`. A persisted theme string is kept exactly when the
`in THEMES` check accepts it — one of the known theme ids or an
`Object.prototype` property name — and falls back to the fixed default
only otherwise (and when absent). A missing or malformed record yields an
empty board of the default size, while a record whose `cells` field alone
is missing yields an empty board of the persisted (clamped) dimensions,
not the default ones. -/
theorem saved_state_defaults (p : Parsed) :
    (10 ≤ (loadSaved p).width ∧ (loadSaved p).width ≤ 150
      ∧ 10 ≤ (loadSaved p).height ∧ (loadSaved p).height ≤ 150)
    ∧ (p.speed = none → (loadSaved p).speed = 8)
    ∧ (∀ q, p.speed = some q → 1 ≤ (loadSaved p).speed ∧ (loadSaved p).speed ≤ 30)
    ∧ (p.wrap = none → (loadSaved p).wrap = true)
    ∧ (∀ t, p.theme = some t → isThemeId t = true → (loadSaved p).theme = t)
    ∧ (∀ t, p.theme = some t → isThemeId t = false → (loadSaved p).theme = defaultTheme)
    ∧ (p.theme = none → (loadSaved p).theme = defaultTheme)
    ∧ initCells (loadSavedState none) = createEmptyBoard 42 28
    ∧ (p.cells = none → initCells (loadSavedState (some p))
        = createEmptyBoard (loadSaved p).width (loadSaved p).height) := by
  refine ⟨⟨?_, ?_, ?_, ?_⟩, ?_, ?_, ?_, ?_, ?_, ?_, ?_, ?_⟩
  · exact (clampSize_toNat_bounds _).1
  · exact (clampSize_toNat_bounds _).2
  · exact (clampSize_toNat_bounds _).1
  · exact (clampSize_toNat_bounds _).2
  · intro hs
    simp [loadSaved, hs]
  · intro q hq
    have he : (loadSaved p).speed = min 30 (max 1 q) := by simp [loadSaved, hq]
    rw [he]
    exact ⟨le_min (by norm_num) (le_max_left _ _), min_le_left _ _⟩
  · intro hw
    simp [loadSaved, hw]
  · intro t ht hid
    simp [loadSaved, ht, hid]
  · intro t ht hid
    simp [loadSaved, ht, hid]
  · intro ht
    simp [loadSaved, ht]
  · rfl
  · intro hc
    have he : (loadSaved p).cells = none := hc
    show initCells (some (loadSaved p)) = _
    unfold initCells
    dsimp only
    rw [he]

/-- Counterexample for C6 as frozen, on both failing clauses: a well-formed
record with `width = 100`, `height = 50` and no `cells` field does not
produce an empty board of the default size (it produces a 100×50 board,
5000 cells instead of 1176); and the unrecognized persisted theme
`"toString"` — an `Object.prototype` name, not a theme id — is kept
instead of falling back to the fixed default. -/
theorem saved_state_defaults_cex :
    (initCells (loadSavedState (some ⟨some 100, some 50, none, none, none, none⟩))
      ≠ createEmptyBoard 42 28)
    ∧ (loadSaved ⟨none, none, none, none, some ("toString"), none⟩).theme ≠ defaultTheme := by
  constructor
  · intro he
    have hl := congrArg List.length he
    have e1 : clampSize 100 = 100 := by norm_num [clampSize, jsRound]
    have e2 : clampSize 50 = 50 := by norm_num [clampSize, jsRound]
    rw [show initCells (loadSavedState (some ⟨some 100, some 50, none, none, none, none⟩))
          = createEmptyBoard (clampSize 100).toNat (clampSize 50).toNat from rfl,
        createEmptyBoard, createEmptyBoard, List.length_replicate, List.length_replicate,
        e1, e2] at hl
    exact absurd hl (by decide)
  · intro he
    have ht : (loadSaved ⟨none, none, none, none, some ("toString"), none⟩).theme
        = ("toString") := by
      simp [loadSaved, isThemeId, objectPrototypeKeys]
    rw [ht] at he
    exact absurd he (by simp [defaultTheme])

/-- Witness for C6 at a record with only an unrecognized theme present. -/
theorem saved_state_defaults_witness :
    (loadSaved ⟨none, none, none, none, some ("purple"), none⟩).speed = 8
    ∧ (loadSaved ⟨none, none, none, none, some ("purple"), none⟩).wrap = true
    ∧ (loadSaved ⟨none, none, none, none, some ("purple"), none⟩).theme = defaultTheme
    ∧ initCells (loadSavedState (some ⟨none, none, none, none, some ("purple"), none⟩))
        = createEmptyBoard
            (loadSaved ⟨none, none, none, none, some ("purple"), none⟩).width
            (loadSaved ⟨none, none, none, none, some ("purple"), none⟩).height := by
  have h := saved_state_defaults ⟨none, none, none, none, some ("purple"), none⟩
  exact ⟨h.2.1 rfl, h.2.2.2.1 rfl, h.2.2.2.2.2.1 ("purple") rfl (by decide),
    h.2.2.2.2.2.2.2.2 rfl⟩

lemma applySizeOp_eq (dW dH : ℚ) (s : AppState) :
    applySizeOp dW dH s =
      if (clampSize dW).toNat = s.width ∧ (clampSize dH).toNat = s.height then s
      else { s with
        cells := resizeBoard s.cells s.width s.height (clampSize dW).toNat (clampSize dH).toNat,
        width := (clampSize dW).toNat, height := (clampSize dH).toNat,
        generation := 0 } := rfl

/-- Claim C7: the generation counter increments by exactly one per rule
engine advance — manual step and gated automatic tick alike — and is reset
to zero by clear, randomize, successful pattern placement, and an actual
resize. -/
theorem generation_counter (s : AppState) (rand : ℕ → ℚ) (density : ℚ) (p : Pattern)
    (dW dH : ℚ) (speed now lastFrame : ℚ) :
    (stepOnce s).generation = s.generation + 1
    ∧ (clearBoard s).generation = 0
    ∧ (randomizeBoard rand density s).generation = 0
    ∧ (p.minWidth ≤ s.width → p.minHeight ≤ s.height → (applyPatternOp p s).generation = 0)
    ∧ ((clampSize dW).toNat ≠ s.width ∨ (clampSize dH).toNat ≠ s.height →
        (applySizeOp dW dH s).generation = 0)
    ∧ (1000 / speed ≤ now - lastFrame →
        (tick speed now lastFrame s.generation).2 = s.generation + 1)
    ∧ (¬ 1000 / speed ≤ now - lastFrame →
        (tick speed now lastFrame s.generation).2 = s.generation) := by
  refine ⟨rfl, rfl, rfl, ?_, ?_, ?_, ?_⟩
  · intro h1 h2
    rw [applyPatternOp, if_neg (by omega)]
  · intro hne
    rw [applySizeOp_eq, if_neg (by tauto)]
  · intro hg
    rw [tick, if_pos hg]
  · intro hg
    rw [tick, if_neg hg]

/-- Witness for C7: placements, resizes and a passing tick on a concrete
2×2 state at generation 7. -/
theorem generation_counter_witness :
    (applyPatternOp ⟨2, 2, []⟩ ⟨[0, 0, 0, 0], 2, 2, true, 7⟩).generation = 0
    ∧ (applySizeOp 20 15 ⟨[0, 0, 0, 0], 2, 2, true, 7⟩).generation = 0
    ∧ (tick 8 200 0 7).2 = 7 + 1 := by
  have h := generation_counter ⟨[0, 0, 0, 0], 2, 2, true, 7⟩ (fun _ => 0) (1/2)
    ⟨2, 2, []⟩ 20 15 8 200 0
  have e1 : clampSize 20 = 20 := by norm_num [clampSize, jsRound]
  exact ⟨h.2.2.2.1 (by decide) (by decide),
    h.2.2.2.2.1 (Or.inl (by rw [e1]; decide)),
    h.2.2.2.2.2.1 (by norm_num)⟩

/-- Claim C8: with all samples in `[0,1)`, density 0 yields the all-dead
board and density 1 the all-live board; in general cell `i` is live exactly
when its own sample is below the density. -/
theorem randomBoard_density (rand : ℕ → ℚ) (w h : ℕ) (density : ℚ) (i : ℕ)
    (hr : ∀ j, 0 ≤ rand j ∧ rand j < 1) (hi : i < w * h) :
    randomBoard rand w h 0 = createEmptyBoard w h
    ∧ randomBoard rand w h 1 = List.replicate (w * h) 1
    ∧ ((randomBoard rand w h density).getD i 0 = 1 ↔ rand i < density) := by
  refine ⟨?_, ?_, ?_⟩
  · rw [createEmptyBoard]
    apply List.eq_replicate_iff.mpr
    refine ⟨by simp [randomBoard], ?_⟩
    intro c hc
    obtain ⟨j, hj, rfl⟩ := List.mem_map.mp hc
    rw [if_neg (by have := (hr j).1; intro hlt; exact absurd hlt (by exact not_lt.mpr this))]
  · apply List.eq_replicate_iff.mpr
    refine ⟨by simp [randomBoard], ?_⟩
    intro c hc
    obtain ⟨j, hj, rfl⟩ := List.mem_map.mp hc
    rw [if_pos (hr j).2]
  · rw [randomBoard, getD_map_range _ _ _ hi]
    split_ifs with hc
    · simp [hc]
    · simp [hc]

/-- Witness for C8 with the constant-zero sample stream on a 2×2 board. -/
theorem randomBoard_density_witness :
    randomBoard (fun _ => (0 : ℚ)) 2 2 1 = List.replicate (2 * 2) 1 := by
  have h := randomBoard_density (fun _ => (0 : ℚ)) 2 2 1 0
    (fun j => ⟨le_refl 0, by norm_num⟩) (by decide)
  exact h.2.1

/-- Claim C9: over any trace of scheduler callback timestamps, the advances
fired by the gated tick are a sublist of the callbacks (at most one advance
per callback, none fabricated) and any two consecutive advances are
separated by at least `1000/speed` milliseconds. -/
theorem tick_spacing (speed : ℚ) (ts : List ℚ) (lastFrame : ℚ) :
    List.Sublist (tickRun speed ts lastFrame) ts
    ∧ List.Chain' (fun a b => 1000 / speed ≤ b - a) (tickRun speed ts lastFrame) := by
  constructor
  · induction ts generalizing lastFrame with
    | nil => simp [tickRun]
    | cons now rest ih =>
      rw [tickRun]
      split_ifs
      · exact List.Sublist.cons₂ now (ih now)
      · exact List.Sublist.cons now (ih lastFrame)
  · have key : ∀ (l : List ℚ) (last : ℚ),
        List.Chain (fun a b => 1000 / speed ≤ b - a) last (tickRun speed l last) := by
      intro l
      induction l with
      | nil =>
        intro last
        rw [tickRun]
        exact List.Chain.nil
      | cons now rest ih =>
        intro last
        rw [tickRun]
        split_ifs with hg
        · exact List.chain_cons.mpr ⟨hg, ih now⟩
        · exact ih last
    have h := key ts lastFrame
    cases hr : tickRun speed ts lastFrame with
    | nil => simp
    | cons a l =>
      rw [hr] at h
      exact (List.chain_cons.mp h).2

lemma deserializeCells_eq (raw : List Char) (w h : ℕ) :
    deserializeCells raw w h
      = (List.range (w * h)).map fun i =>
          if i < (raw.filter fun c => c == '0' || c == '1').length then
            (if (raw.filter fun c => c == '0' || c == '1').getD i '0' = '1' then 1 else 0)
          else 0 := rfl

/-- Claim C10: `deserializeCells` always returns exactly `width*height`
entries, each 0 or 1, and the result depends only on the first
`width*height` characters that survive the `0/1` stripping — an over-long
persisted cell string is silently truncated. -/
theorem deserializeCells_spec (raw raw2 : List Char) (w h : ℕ) :
    (deserializeCells raw w h).length = w * h
    ∧ (∀ c ∈ deserializeCells raw w h, c = 0 ∨ c = 1)
    ∧ ((raw.filter fun c => c == '0' || c == '1').take (w * h)
          = (raw2.filter fun c => c == '0' || c == '1').take (w * h)
        → deserializeCells raw w h = deserializeCells raw2 w h) := by
  refine ⟨?_, ?_, ?_⟩
  · simp [deserializeCells_eq]
  · intro c hc
    rw [deserializeCells_eq] at hc
    obtain ⟨i, hi, rfl⟩ := List.mem_map.mp hc
    split_ifs
    · exact Or.inr rfl
    · exact Or.inl rfl
    · exact Or.inl rfl
  · intro ht
    rw [deserializeCells_eq, deserializeCells_eq]
    apply List.map_congr_left
    intro i hmem
    rw [List.mem_range] at hmem
    have hlen : min (w * h) (raw.filter fun c => c == '0' || c == '1').length
        = min (w * h) (raw2.filter fun c => c == '0' || c == '1').length := by
      have hc := congrArg List.length ht
      simpa [List.length_take] using hc
    by_cases h1 : i < (raw.filter fun c => c == '0' || c == '1').length
    · have h2 : i < (raw2.filter fun c => c == '0' || c == '1').length := by omega
      rw [if_pos h1, if_pos h2]
      have e1 : ((raw.filter fun c => c == '0' || c == '1').take (w * h)).getD i '0'
          = (raw.filter fun c => c == '0' || c == '1').getD i '0' := by
        rw [List.getD_eq_getElem _ _ (by simp [List.length_take]; omega),
          List.getD_eq_getElem _ _ h1]
        exact List.getElem_take _
      have e2 : ((raw2.filter fun c => c == '0' || c == '1').take (w * h)).getD i '0'
          = (raw2.filter fun c => c == '0' || c == '1').getD i '0' := by
        rw [List.getD_eq_getElem _ _ (by simp [List.length_take]; omega),
          List.getD_eq_getElem _ _ h2]
        exact List.getElem_take _
      rw [← e1, ← e2, ht]
    · have h2 : ¬ i < (raw2.filter fun c => c == '0' || c == '1').length := by omega
      rw [if_neg h1, if_neg h2]

/-- Witness for C10: a string with junk and one with an extra trailing digit
deserialize identically on a 1×2 board. -/
theorem deserializeCells_spec_witness :
    deserializeCells (("11abc").data) 1 2 = deserializeCells (("110").data) 1 2 := by
  exact (deserializeCells_spec (("11abc").data) (("110").data) 1 2).2.2 (by decide)

end GameOfLife
